import Mathlib

/-!
wsFile: packet framing, chunked streaming and command dispatch.

A shallow embedding of `server/main.go`.  The websocket connection, the HTTP
client and the filesystem are external to the program; they are modelled as
explicit state (`Conn`, `Net`, `File`) that the embedded functions thread
through.  A Go `panic` is an explicit `Option Panic` next to the state reached
when it was raised.  Loops carry a fuel argument; the callers supply fuel that
is proved sufficient (`processCmd_returns`).

A Go `int` is an `Int`: `seq`, `offset` and `until` stay far below `2^63` for
any content that fits in memory, so the only wrap-around embedded is the
explicit conversion `uint16(...)`.  A `byte` is a `Fin 256`.
-/

namespace WsFile

/-! ## Constants (main.go, lines 31-38) -/

/-- Maximum packet size. -/
def maxPacketSize : Nat := 50000

/-- Async packet header size, in bytes. -/
def asyncPacketHeaderSize : Nat := 4

/-- Max async payload size. -/
def asyncMaxPayloadSize : Nat := maxPacketSize - asyncPacketHeaderSize

/-- The value of `upgrader.WriteBufferSize` (main.go, line 45). -/
def WriteBufferSize : Nat := 1024

/-! ## Data -/

/-- One Go `byte`. -/
abbrev Byte := Fin 256

/-- A Go `[]byte`. -/
abbrev Bytes := List Byte

/-- A Go `string`, as its characters.  The program inspects a command only
through ASCII bytes (the space, `/`, `http`, the sign and the digits), for
which reading characters and reading bytes agree. -/
abbrev GoString := List Char

/-- The reasons for which the program panics. -/
inductive Panic where
  | payloadTooBig
  | writeFailed
  | sliceBounds
  | requestFailed
  | nilReader
  | openFailed
  | readFailed
  deriving DecidableEq, Repr

/-- The websocket connection as the program sees it: the binary messages
written so far, oldest first, and for each coming call of `WriteMessage`
whether it fails (`true`); once the list is used up every write succeeds. -/
structure Conn where
  sent : List Bytes
  faults : List Bool
  deriving DecidableEq, Repr

/-- The call `ws.WriteMessage(websocket.BinaryMessage, data)`: the updated
connection and whether an error was returned.  A failed write leaves no
message on the connection. -/
def WriteMessage (ws : Conn) (data : Bytes) : Conn × Bool :=
  match ws.faults with
  | [] => (⟨ws.sent ++ [data], []⟩, false)
  | false :: rest => (⟨ws.sent ++ [data], rest⟩, false)
  | true :: rest => (⟨ws.sent, rest⟩, true)

/-- The Go conversion `uint16(x)` of an `int`: the low 16 bits. -/
def uint16 (x : Int) : Nat := (x % 65536).toNat

/-- The two bytes `binary.BigEndian.PutUint16` stores for `v`. -/
def PutUint16 (v : Nat) : Bytes :=
  [⟨v / 256 % 256, Nat.mod_lt _ (by decide)⟩, ⟨v % 256, Nat.mod_lt _ (by decide)⟩]

/-- The buffer `data` built by `clientWriteAsync` (main.go, lines 61-65):
the channel id, then the sequence number, then the payload. -/
def asyncPacket (payload : Bytes) (chan_id seq : Int) : Bytes :=
  PutUint16 (uint16 chan_id) ++ PutUint16 (uint16 seq) ++ payload

/-- Write async messages to client (main.go, lines 54-73). -/
def clientWriteAsync (ws : Conn) (payload : Bytes) (chan_id seq : Int) :
    Conn × Option Panic :=
  if payload.length > asyncMaxPayloadSize then
    (ws, some Panic.payloadTooBig)
  else
    match WriteMessage ws (asyncPacket payload chan_id seq) with
    | (ws1, true) => (ws1, some Panic.writeFailed)
    | (ws1, false) => (ws1, none)

/-- Write sync messages to client (main.go, lines 76-83). -/
def clientWriteSync (ws : Conn) (payload : Bytes) : Conn × Option Panic :=
  match WriteMessage ws payload with
  | (ws1, true) => (ws1, some Panic.writeFailed)
  | (ws1, false) => (ws1, none)

/-- Modelled from the spec: the receiving side of the packet framer, which is
not part of the server.  Bytes 0-1 are the channel id and bytes 2-3 the
sequence number, both big-endian 16-bit unsigned; the rest is the payload. -/
def decodePacket : Bytes → Option (Int × Int × Bytes)
  | b0 :: b1 :: b2 :: b3 :: payload =>
    some (((b0.val * 256 + b1.val : Nat) : Int), ((b2.val * 256 + b3.val : Nat) : Int), payload)
  | _ => none

/-! ## The streaming loop of `serveWebContent` (main.go, lines 127-146) -/

/-- The Go slice expression `b[lo:hi]`; `none` is the run-time panic for
bounds that are out of range. -/
def goSlice (b : Bytes) (lo hi : Nat) : Option Bytes :=
  if lo ≤ hi ∧ hi ≤ b.length then some ((b.drop lo).take (hi - lo)) else none

/-- The `for` loop of `serveWebContent` (main.go, lines 131-144), entered with
the values of `seq` and `offset`.  The result is the connection, the value of
`seq` when the loop is left and the panic raised, if any; `none` means the
fuel ran out. -/
def streamLoop (hah : Bytes) (async_chanid : Int) :
    Nat → Conn → Int → Nat → Option (Conn × Int × Option Panic)
  | 0, _, _, _ => none
  | fuel + 1, ws, seq, offset =>
    let until_ := offset + asyncMaxPayloadSize
    let seq := seq + 1
    if until_ > hah.length then
      match goSlice hah offset hah.length with
      | none => some (ws, seq, some Panic.sliceBounds)
      | some chunk =>
        match clientWriteAsync ws chunk async_chanid seq with
        | (ws1, p) => some (ws1, seq, p)
    else
      match goSlice hah offset until_ with
      | none => some (ws, seq, some Panic.sliceBounds)
      | some chunk =>
        match clientWriteAsync ws chunk async_chanid seq with
        | (ws1, some p) => some (ws1, seq, some p)
        | (ws1, none) => streamLoop hah async_chanid fuel ws1 seq until_

/-- Lines 127-146 of `serveWebContent`: the loop started with `seq := 0` and
`offset := 0`, then the write of the empty payload with the final `seq`. -/
def streamContent (ws : Conn) (hah : Bytes) (async_chanid : Int) :
    Option (Conn × Option Panic) :=
  match streamLoop hah async_chanid (hah.length + 1) ws 0 0 with
  | none => none
  | some (ws1, _, some p) => some (ws1, some p)
  | some (ws1, seq, none) => some (clientWriteAsync ws1 [] async_chanid seq)

/-! ## The world around the program -/

/-- What the program gets back for one HTTP request that was answered: whether
the answer declares `Content-Encoding: gzip`, whether `gzip.NewReader`
accepts its body, the bytes `ioutil.ReadAll` returns (those read before the
end of the body or before a read or inflate error) and whether `ReadAll`
returned an error with them. -/
structure HttpResponse where
  gzip : Bool
  gzipOk : Bool
  body : Bytes
  readErr : Bool
  deriving DecidableEq, Repr

/-- The outcome of `http.NewRequest` followed by `client.Do`. -/
inductive HttpResult where
  | failed
  | response (r : HttpResponse)
  deriving DecidableEq, Repr

/-- The network: the urls requested so far, oldest first, and the outcomes of
the coming requests; once the list is used up every request fails. -/
structure Net where
  requests : List GoString
  replies : List HttpResult
  deriving DecidableEq, Repr

/-- One request for `url` on the network. -/
def Net.Do (net : Net) (url : GoString) : Net × HttpResult :=
  match net.replies with
  | [] => (⟨net.requests ++ [url], []⟩, HttpResult.failed)
  | r :: rest => (⟨net.requests ++ [url], rest⟩, r)

/-- A file on disk: its content, whether `os.Open` fails on it, and after how
many successful calls of `Read` a read error occurs (`none`: never). -/
structure File where
  data : Bytes
  openErr : Bool
  readErrAfter : Option Nat
  deriving DecidableEq, Repr

/-- The state the program runs in: the connection, the global map `Cache`
(main.go, line 51), the network and the files by path. -/
structure World where
  ws : Conn
  Cache : List (GoString × Bytes)
  net : Net
  fs : List (GoString × File)
  deriving DecidableEq, Repr

/-- The map assignment `Cache[url] = hah`. -/
def cacheSet (cache : List (GoString × Bytes)) (url : GoString) (hah : Bytes) :
    List (GoString × Bytes) :=
  (url, hah) :: cache.filter (fun e => e.1 != url)

/-! ## `serveWebContent` (main.go, lines 86-175) -/

/-- The `else` branch of the cache test (main.go, lines 94-124): the request,
the choice of reader, `ioutil.ReadAll` with its error dropped, and the store
into `Cache`.  Returns the bytes `hah` when no panic was raised. -/
def fetchAndCache (w : World) (url : GoString) : World × Option Panic × Bytes :=
  match Net.Do w.net url with
  | (net1, HttpResult.failed) => ({ w with net := net1 }, some Panic.requestFailed, [])
  | (net1, HttpResult.response r) =>
    if r.gzip && !r.gzipOk then
      ({ w with net := net1 }, some Panic.nilReader, [])
    else
      ({ w with net := net1, Cache := cacheSet w.Cache url r.body }, none, r.body)

/-- Lines 127-146 of `serveWebContent` on the connection of the world. -/
def streamWorld (w : World) (hah : Bytes) (async_chanid : Int) :
    Option (World × Option Panic) :=
  match streamContent w.ws hah async_chanid with
  | none => none
  | some (ws1, p) => some ({ w with ws := ws1 }, p)

/-- Serve a file from the web (main.go, lines 86-175).  The parameter `async`
is not read anywhere in the body. -/
def serveWebContent (w : World) (url : GoString) (_async : Bool) (async_chanid : Int) :
    Option (World × Option Panic) :=
  match w.Cache.lookup url with
  | some hah => streamWorld w hah async_chanid
  | none =>
    match fetchAndCache w url with
    | (w1, some p, _) => some (w1, some p)
    | (w1, none, hah) => streamWorld w1 hah async_chanid

/-! ## `serveFile` (main.go, lines 178-226) -/

/-- The read loop of `serveFile` (main.go, lines 204-225).  `rest` is what is
left of the file; each `reader.Read(buffer)` delivers the next
`WriteBufferSize` bytes of it, or all of it when less is left, and reports
`io.EOF` when nothing is left.  Every async write passes the constant `0` as
sequence number. -/
def serveFileLoop (async : Bool) (async_chanid : Int) :
    Nat → Conn → Bytes → Option Nat → Option (Conn × Option Panic)
  | 0, _, _, _ => none
  | fuel + 1, ws, rest, errAfter =>
    if errAfter = some 0 then
      some (ws, some Panic.readFailed)
    else if rest = [] then
      if async = true then
        some (clientWriteAsync ws [] async_chanid 0)
      else
        some (clientWriteSync ws [])
    else
      match (if async = true then clientWriteAsync ws (rest.take WriteBufferSize) async_chanid 0
             else clientWriteSync ws (rest.take WriteBufferSize)) with
      | (ws1, some p) => some (ws1, some p)
      | (ws1, none) =>
        serveFileLoop async async_chanid fuel ws1 (rest.drop WriteBufferSize)
          (errAfter.map Nat.pred)

/-- Serve a file from disk (main.go, lines 178-226).  A path that is not in
`fs` is a file that does not exist; the deferred `fp.Close()` is taken to
succeed. -/
def serveFile (w : World) (filepath : GoString) (async : Bool) (async_chanid : Int) :
    Option (World × Option Panic) :=
  match w.fs.lookup filepath with
  | none => some (w, none)
  | some f =>
    if f.openErr then
      some (w, some Panic.openFailed)
    else
      match serveFileLoop async async_chanid (f.data.length + 1) w.ws f.data f.readErrAfter with
      | none => none
      | some (ws1, p) => some ({ w with ws := ws1 }, p)

/-! ## `processCmd` (main.go, lines 229-290) -/

/-- The pieces of `s` before and after its first space, if it has one. -/
def cutAtSpace : GoString → Option (GoString × GoString)
  | [] => none
  | c :: cs =>
    if c = ' ' then some ([], cs)
    else
      match cutAtSpace cs with
      | none => none
      | some (a, b) => some (c :: a, b)

/-- The call `strings.SplitN(s, " ", 2)`. -/
def SplitN (s : GoString) : List GoString :=
  match cutAtSpace s with
  | none => [s]
  | some (a, b) => [a, b]

/-- The call `strings.ToUpper(s)`, on the letters `a` to `z`; no other
character has `G`, `E` or `T` as its upper case, so the comparison with
`"GET"` is not affected. -/
def ToUpper (s : GoString) : GoString := s.map Char.toUpper

/-- The value of a string of decimal digits read after `acc`; `none` when a
character is not a digit. -/
def parseDigits : GoString → Nat → Option Nat
  | [], acc => some acc
  | c :: cs, acc =>
    if 48 ≤ c.toNat ∧ c.toNat ≤ 57 then parseDigits cs (acc * 10 + (c.toNat - 48)) else none

/-- The call `strconv.Atoi(s)` on a 64-bit platform: an optional sign, then
one or more decimal digits, with a value that fits an `int`; `none` is a
returned error. -/
def Atoi (s : GoString) : Option Int :=
  let signed : Bool × GoString :=
    match s with
    | '-' :: r => (true, r)
    | '+' :: r => (false, r)
    | _ => (false, s)
  if signed.2 = [] then none
  else
    match parseDigits signed.2 0 with
    | none => none
    | some n =>
      let v : Int := if signed.1 then -(n : Int) else (n : Int)
      if -9223372036854775808 ≤ v ∧ v ≤ 9223372036854775807 then some v else none

/-- The call `strings.TrimPrefix(s, "/")`. -/
def TrimPrefix (s : GoString) : GoString :=
  match s with
  | '/' :: r => r
  | _ => s

/-- The choice between a local file and the web (main.go, lines 283-287). -/
def serveTarget (w : World) (get : GoString) (async : Bool) (async_chanid : Int) :
    Option (World × Option Panic) :=
  if get.length > 0 ∧ get.take 1 = "/".toList then
    serveFile w (TrimPrefix get) async async_chanid
  else if get.length > 4 ∧ get.take 4 = "http".toList then
    serveWebContent w get async async_chanid
  else
    some (w, none)

/-- Process commands and serve its files through the socket (main.go, lines
229-290).  The deferred `recover` turns every panic into a normal return; the
second component is the value it recovered. -/
def processCmd (w : World) (buf : GoString) : Option (World × Option Panic) :=
  match SplitN buf with
  | [method, rest] =>
    if ToUpper method = "GET".toList then
      match SplitN rest with
      | [a0, a1] =>
        match Atoi a0 with
        | none => some (w, none)
        | some async_chanid =>
          if async_chanid > 65535 then some (w, none)
          else serveTarget w a1 true async_chanid
      | [a0] => serveTarget w a0 false 0
      | _ => some (w, none)
    else
      some (w, none)
  | _ => some (w, none)

/-! ## Commands served concurrently (main.go, line 317)

`wsConnect` starts `go processCmd(ws, cmd)` for every command, and `Cache` is
a plain map that no lock protects.  A goroutine that serves a url gives way to
the others while it waits for the answer to its HTTP request, which is after
its lookup `Cache[url]` (line 89) and before its store `Cache[url] = hah`
(line 124).  `WebTask` is one call of `serveWebContent` cut at that point. -/

/-- A call of `serveWebContent`: not started; past a lookup that missed and
about to wait on the network; or returned, with the bytes it streamed
(`none` after a panic). -/
inductive WebTask where
  | start (url : GoString) (async_chanid : Int)
  | fetching (url : GoString) (async_chanid : Int)
  | finished (served : Option Bytes)
  deriving DecidableEq, Repr

/-- One uninterrupted stretch of a call of `serveWebContent`: from its start
through the lookup (and on to its return, on a cache hit), or the exchange
with the network and everything after it (lines 94-146). -/
def WebTask.step (w : World) : WebTask → Option (World × WebTask)
  | WebTask.start url async_chanid =>
    match w.Cache.lookup url with
    | some hah =>
      match streamWorld w hah async_chanid with
      | none => none
      | some (w1, none) => some (w1, WebTask.finished (some hah))
      | some (w1, some _) => some (w1, WebTask.finished none)
    | none => some (w, WebTask.fetching url async_chanid)
  | WebTask.fetching url async_chanid =>
    match fetchAndCache w url with
    | (w1, some _, _) => some (w1, WebTask.finished none)
    | (w1, none, hah) =>
      match streamWorld w1 hah async_chanid with
      | none => none
      | some (w2, none) => some (w2, WebTask.finished (some hah))
      | some (w2, some _) => some (w2, WebTask.finished none)
  | WebTask.finished served => some (w, WebTask.finished served)

/-- The calls `tasks` run under a schedule: each entry names the call that runs
its next stretch. -/
def runTasks : List Nat → World → List WebTask → Option (World × List WebTask)
  | [], w, tasks => some (w, tasks)
  | i :: schedule, w, tasks =>
    match tasks.get? i with
    | none => runTasks schedule w tasks
    | some t =>
      match WebTask.step w t with
      | none => none
      | some (w1, t1) => runTasks schedule w1 (tasks.set i t1)

/-- Calls of `serveWebContent` for one url, one per channel id of the list,
each returning (or recovered) before the next starts. -/
def serveSequential (url : GoString) : List Int → World → Option World
  | [], w => some w
  | async_chanid :: rest, w =>
    match serveWebContent w url true async_chanid with
    | none => none
    | some (w1, _) => serveSequential url rest w1

/-- The messages that lines 127-146 of `serveWebContent` write for the content
`hah` on channel `c` when every write succeeds (`streamContent_healthy`). -/
def streamPackets (hah : Bytes) (c : Int) : List Bytes :=
  (List.range (hah.length / asyncMaxPayloadSize + 1)).map
      (fun i => asyncPacket
        ((hah.drop (i * asyncMaxPayloadSize)).take asyncMaxPayloadSize) c ((i : Int) + 1))
    ++ [asyncPacket [] c ((hah.length / asyncMaxPayloadSize : Nat) + 1)]

/-- A connection on which every coming write succeeds. -/
def Conn.healthy (ws : Conn) : Prop := ∀ b ∈ ws.faults, b = false

/-! ## Theorems -/

/-! ### The header -/

theorem uint16_of_range (x : Int) (h0 : 0 ≤ x) (h1 : x ≤ 65535) :
    ((uint16 x : Nat) : Int) = x := by
  unfold uint16
  omega

theorem decodePacket_asyncPacket (payload : Bytes) (chan_id seq : Int) :
    decodePacket (asyncPacket payload chan_id seq)
      = some (((uint16 chan_id : Nat) : Int), ((uint16 seq : Nat) : Int), payload) := by
  have hc : uint16 chan_id < 65536 := by unfold uint16; omega
  have hs : uint16 seq < 65536 := by unfold uint16; omega
  simp only [asyncPacket, PutUint16, decodePacket, List.cons_append, List.nil_append,
    Option.some.injEq, Prod.mk.injEq, and_true]
  constructor <;> (congr 1; omega)

/-! ### The packet framer -/

theorem asyncPacket_length (payload : Bytes) (chan_id seq : Int) :
    (asyncPacket payload chan_id seq).length = 4 + payload.length := by
  simp [asyncPacket, PutUint16]
  omega

theorem WriteMessage_of_head (ws : Conn) (data : Bytes) (h : ws.faults.head? ≠ some true) :
    WriteMessage ws data = (⟨ws.sent ++ [data], ws.faults.tail⟩, false) := by
  unfold WriteMessage
  cases hf : ws.faults with
  | nil => rfl
  | cons b rest =>
    cases b with
    | false => rfl
    | true => simp [hf] at h

theorem healthy_head (ws : Conn) (h : ws.healthy) : ws.faults.head? ≠ some true := by
  unfold Conn.healthy at h
  cases hf : ws.faults with
  | nil => simp
  | cons b rest =>
    have := h b (by simp [hf])
    simp [this]

theorem healthy_tail (sent : List Bytes) (ws : Conn) (h : ws.healthy) :
    Conn.healthy ⟨sent, ws.faults.tail⟩ := by
  unfold Conn.healthy at *
  intro b hb
  exact h b (List.mem_of_mem_tail hb)

theorem clientWriteAsync_of_head (ws : Conn) (payload : Bytes) (chan_id seq : Int)
    (hlen : payload.length ≤ asyncMaxPayloadSize) (h : ws.faults.head? ≠ some true) :
    clientWriteAsync ws payload chan_id seq
      = (⟨ws.sent ++ [asyncPacket payload chan_id seq], ws.faults.tail⟩, none) := by
  unfold clientWriteAsync
  rw [if_neg (by omega), WriteMessage_of_head ws _ h]

/-- C1: for a channel id and a sequence number in [0, 65535] and a payload of at
most `asyncMaxPayloadSize` bytes, the message `clientWriteAsync` writes (on a
connection whose next write succeeds) has exactly 4 more bytes than the
payload, so at most `maxPacketSize`, and decodes to exactly the channel id,
the sequence number and the payload. -/
theorem clientWriteAsync_roundtrip (ws : Conn) (P : Bytes) (c s : Int)
    (hc0 : 0 ≤ c) (hc1 : c ≤ 65535) (hs0 : 0 ≤ s) (hs1 : s ≤ 65535)
    (hP : P.length ≤ asyncMaxPayloadSize) (hw : ws.faults.head? ≠ some true) :
    ∃ msg : Bytes,
      clientWriteAsync ws P c s = (⟨ws.sent ++ [msg], ws.faults.tail⟩, none) ∧
      msg.length = 4 + P.length ∧
      msg.length ≤ maxPacketSize ∧
      decodePacket msg = some (c, s, P) := by
  refine ⟨asyncPacket P c s, clientWriteAsync_of_head ws P c s hP hw,
    asyncPacket_length P c s, ?_, ?_⟩
  · rw [asyncPacket_length]
    have : asyncMaxPayloadSize = 49996 := by decide
    have : maxPacketSize = 50000 := by decide
    omega
  · rw [decodePacket_asyncPacket, uint16_of_range c hc0 hc1, uint16_of_range s hs0 hs1]

/-- Witness of C1: channel 3, sequence number 258, payload `[7, 9]`. -/
theorem clientWriteAsync_roundtrip_witness :
    ∃ msg : Bytes,
      clientWriteAsync ⟨[], []⟩ [7, 9] 3 258 = (⟨[] ++ [msg], ([] : List Bool).tail⟩, none) ∧
      msg.length = 4 + ([7, 9] : Bytes).length ∧
      msg.length ≤ maxPacketSize ∧
      decodePacket msg = some (3, 258, [7, 9]) :=
  clientWriteAsync_roundtrip ⟨[], []⟩ [7, 9] 3 258 (by decide) (by decide) (by decide)
    (by decide) (by decide) (by decide)

/-- C2: a payload longer than `asyncMaxPayloadSize` (which is `maxPacketSize - 4`,
that is 49996) makes `clientWriteAsync` panic with the connection exactly as
it was: nothing is written and no write is attempted.  For a payload of at
most that length the size check does not fire: the outcome is that of the one
call of `WriteMessage` on the 4-byte header followed by the payload, and the
call panics exactly when that write returns an error. -/
theorem clientWriteAsync_size_check (ws : Conn) (payload : Bytes) (chan_id seq : Int) :
    asyncMaxPayloadSize = maxPacketSize - 4 ∧ asyncMaxPayloadSize = 49996 ∧
    (asyncMaxPayloadSize < payload.length →
      clientWriteAsync ws payload chan_id seq = (ws, some Panic.payloadTooBig)) ∧
    (payload.length ≤ asyncMaxPayloadSize →
      (clientWriteAsync ws payload chan_id seq).1
          = (WriteMessage ws (asyncPacket payload chan_id seq)).1 ∧
      (clientWriteAsync ws payload chan_id seq).2 ≠ some Panic.payloadTooBig ∧
      ((clientWriteAsync ws payload chan_id seq).2 = some Panic.writeFailed
          ↔ (WriteMessage ws (asyncPacket payload chan_id seq)).2 = true) ∧
      ((clientWriteAsync ws payload chan_id seq).2 = none
          ↔ (WriteMessage ws (asyncPacket payload chan_id seq)).2 = false)) := by
  refine ⟨by decide, by decide, ?_, ?_⟩
  · intro h
    unfold clientWriteAsync
    rw [if_pos h]
  · intro h
    unfold clientWriteAsync
    rw [if_neg (by omega)]
    rcases hw : WriteMessage ws (asyncPacket payload chan_id seq) with ⟨ws1, b⟩
    cases b <;> simp

/-- Witness of C2: a payload of 49997 bytes on a connection that already
carries one message. -/
theorem clientWriteAsync_size_check_witness :
    asyncMaxPayloadSize < (List.replicate 49997 (0 : Byte)).length ∧
    clientWriteAsync ⟨[[1]], [false]⟩ (List.replicate 49997 0) 3 1
      = (⟨[[1]], [false]⟩, some Panic.payloadTooBig) :=
  ⟨by rw [List.length_replicate]; decide,
   (clientWriteAsync_size_check ⟨[[1]], [false]⟩ (List.replicate 49997 0) 3 1).2.2.1
     (by rw [List.length_replicate]; decide)⟩

/-! ### The streaming loop -/

theorem clientWriteAsync_healthy (ws : Conn) (payload : Bytes) (chan_id seq : Int)
    (hlen : payload.length ≤ asyncMaxPayloadSize) (h : ws.healthy) :
    ∃ ws1 : Conn, clientWriteAsync ws payload chan_id seq = (ws1, none) ∧ ws1.healthy ∧
      ws1.sent = ws.sent ++ [asyncPacket payload chan_id seq] :=
  ⟨⟨ws.sent ++ [asyncPacket payload chan_id seq], ws.faults.tail⟩,
    clientWriteAsync_of_head ws payload chan_id seq hlen (healthy_head ws h),
    healthy_tail _ ws h, rfl⟩

theorem asyncMaxPayloadSize_pos : 0 < asyncMaxPayloadSize := by decide

theorem streamLoop_healthy (hah : Bytes) (c : Int) :
    ∀ (fuel : Nat) (ws : Conn) (seq : Int) (offset : Nat),
      ws.healthy → offset ≤ hah.length →
      (hah.length - offset) / asyncMaxPayloadSize + 1 ≤ fuel →
      ∃ ws1 : Conn,
        streamLoop hah c fuel ws seq offset
          = some (ws1, seq + (((hah.length - offset) / asyncMaxPayloadSize + 1 : Nat) : Int),
              none) ∧
        ws1.healthy ∧
        ws1.sent = ws.sent ++
          (List.range ((hah.length - offset) / asyncMaxPayloadSize + 1)).map
            (fun i => asyncPacket
              ((hah.drop (offset + i * asyncMaxPayloadSize)).take asyncMaxPayloadSize) c
              (seq + 1 + (i : Int))) := by
  intro fuel
  induction fuel with
  | zero => intro ws seq offset _ _ hf; exact absurd hf (Nat.not_succ_le_zero _)
  | succ fuel ih =>
    intro ws seq offset hws hoff hf
    have hpos := asyncMaxPayloadSize_pos
    unfold streamLoop
    by_cases hlast : offset + asyncMaxPayloadSize > hah.length
    · have hdiv : (hah.length - offset) / asyncMaxPayloadSize = 0 :=
        Nat.div_eq_of_lt (by omega)
      have hslice : goSlice hah offset hah.length = some (hah.drop offset) := by
        unfold goSlice
        rw [if_pos ⟨hoff, le_refl _⟩]
        congr 1
        apply List.take_of_length_le
        simp
      have hlen : (hah.drop offset).length ≤ asyncMaxPayloadSize := by
        simp only [List.length_drop]; omega
      obtain ⟨ws1, hw, hh, hs⟩ := clientWriteAsync_healthy ws (hah.drop offset) c (seq + 1) hlen hws
      refine ⟨ws1, ?_, hh, ?_⟩
      · simp only [hlast, if_true, hslice, hw, hdiv]
        simp
      · have hr : List.range 1 = [0] := rfl
        rw [hs, hdiv]
        simp only [zero_add, hr, List.map_cons, List.map_nil, Nat.zero_mul,
          Nat.add_zero, Nat.cast_zero, add_zero]
        rw [List.take_of_length_le hlen]
    · have hge : asyncMaxPayloadSize ≤ hah.length - offset := by omega
      have hdiv : (hah.length - offset) / asyncMaxPayloadSize
          = (hah.length - (offset + asyncMaxPayloadSize)) / asyncMaxPayloadSize + 1 := by
        rw [Nat.div_eq_sub_div hpos hge, Nat.sub_sub]
      have hslice : goSlice hah offset (offset + asyncMaxPayloadSize)
          = some ((hah.drop offset).take asyncMaxPayloadSize) := by
        unfold goSlice
        rw [if_pos ⟨by omega, by omega⟩]
        congr 2
        omega
      have hlen : ((hah.drop offset).take asyncMaxPayloadSize).length ≤ asyncMaxPayloadSize := by
        simp only [List.length_take]; omega
      obtain ⟨ws1, hw, hh, hs⟩ :=
        clientWriteAsync_healthy ws ((hah.drop offset).take asyncMaxPayloadSize) c (seq + 1)
          hlen hws
      obtain ⟨ws2, hl, hh2, hs2⟩ := ih ws1 (seq + 1) (offset + asyncMaxPayloadSize) hh
        (by omega) (by omega)
      refine ⟨ws2, ?_, hh2, ?_⟩
      · simp only [hlast, if_false, hslice, hw, hl, hdiv]
        simp only [Option.some.injEq, Prod.mk.injEq, true_and, and_true]
        push_cast
        ring
      · rw [hs2, hs, hdiv, List.range_succ_eq_map (_ + 1), List.map_cons, List.map_map,
          List.append_assoc]
        simp only [List.singleton_append, Nat.zero_mul, Nat.add_zero, Nat.cast_zero, add_zero]
        congr 2
        apply List.map_congr_left
        intro i _
        have e1 : offset + (i + 1) * asyncMaxPayloadSize
            = offset + asyncMaxPayloadSize + i * asyncMaxPayloadSize := by ring
        have e2 : seq + 1 + (((i + 1 : Nat)) : Int) = seq + 1 + 1 + (i : Int) := by
          push_cast; ring
        simp only [Function.comp, Nat.succ_eq_add_one, e1, e2]

/-- What lines 127-146 of `serveWebContent` write when every write succeeds:
for a content of `L` bytes and `M = asyncMaxPayloadSize`, the loop writes the
`L / M + 1` slices of `M` bytes (the last one shorter, possibly empty) under
the sequence numbers `1, ..., L / M + 1`, and the packet with the empty
payload repeats the last of these sequence numbers. -/
theorem streamContent_healthy (ws : Conn) (hah : Bytes) (c : Int) (h : ws.healthy) :
    ∃ ws1 : Conn,
      streamContent ws hah c = some (ws1, none) ∧ ws1.healthy ∧
      ws1.sent = ws.sent ++
        (List.range (hah.length / asyncMaxPayloadSize + 1)).map
          (fun i => asyncPacket
            ((hah.drop (i * asyncMaxPayloadSize)).take asyncMaxPayloadSize) c ((i : Int) + 1))
        ++ [asyncPacket [] c ((hah.length / asyncMaxPayloadSize : Nat) + 1)] := by
  have hpos := asyncMaxPayloadSize_pos
  have hfuel : (hah.length - 0) / asyncMaxPayloadSize + 1 ≤ hah.length + 1 := by
    have := Nat.div_le_self hah.length asyncMaxPayloadSize
    simp only [Nat.sub_zero]; omega
  obtain ⟨ws1, hl, hh, hs⟩ := streamLoop_healthy hah c (hah.length + 1) ws 0 0 h
    (Nat.zero_le _) hfuel
  obtain ⟨ws2, hw, hh2, hs2⟩ := clientWriteAsync_healthy ws1 [] c
    (0 + (((hah.length - 0) / asyncMaxPayloadSize + 1 : Nat) : Int)) (by simp) hh
  refine ⟨ws2, ?_, hh2, ?_⟩
  · unfold streamContent
    rw [hl]
    simp only [hw]
  · rw [hs2, hs]
    simp only [Nat.sub_zero, Nat.zero_add, zero_add]
    have e1 : ∀ i : Nat, (1 : Int) + (i : Int) = (i : Int) + 1 := by intro i; ring
    simp only [e1, Nat.cast_add, Nat.cast_one]

theorem join_slices (hah : Bytes) (m n : Nat) :
    ((List.range n).map (fun i => (hah.drop (i * m)).take m)).flatten = hah.take (n * m) := by
  induction n with
  | zero => simp
  | succ n ih =>
    rw [List.range_succ, List.map_append, List.flatten_append, ih]
    simp only [List.map_cons, List.map_nil, List.flatten_cons, List.flatten_nil, List.append_nil]
    rw [Nat.succ_mul, List.take_add]

theorem join_all_slices (hah : Bytes) :
    ((List.range (hah.length / asyncMaxPayloadSize + 1)).map
      (fun i => (hah.drop (i * asyncMaxPayloadSize)).take asyncMaxPayloadSize)).flatten = hah := by
  rw [join_slices]
  apply List.take_of_length_le
  have := Nat.lt_mul_div_succ hah.length asyncMaxPayloadSize_pos
  rw [Nat.mul_comm]
  omega

/-- C3: on a connection whose writes all succeed, lines 127-146 of
`serveWebContent` return without a panic for every content `hah` (the loop
ends within its fuel and the payload-too-large check never fires); the
messages written are packets of the payloads `payloads`, each of at most
`asyncMaxPayloadSize` bytes; the payloads are the consecutive slices
`hah[i*M : (i+1)*M]` (cut at the end of `hah`) for `i = 0, ..., L / M`
followed by the empty payload; and their concatenation in emission order is
`hah` itself. -/
theorem streamContent_lossless (ws : Conn) (hah : Bytes) (c : Int) (h : ws.healthy) :
    ∃ (ws1 : Conn) (payloads : List Bytes) (seqs : List Int),
      streamContent ws hah c = some (ws1, none) ∧
      seqs.length = payloads.length ∧
      ws1.sent = ws.sent ++ List.zipWith (fun p s => asyncPacket p c s) payloads seqs ∧
      (∀ p ∈ payloads, p.length ≤ asyncMaxPayloadSize) ∧
      payloads = (List.range (hah.length / asyncMaxPayloadSize + 1)).map
          (fun i => (hah.drop (i * asyncMaxPayloadSize)).take asyncMaxPayloadSize) ++ [[]] ∧
      payloads.flatten = hah := by
  obtain ⟨ws1, hr, _, hs⟩ := streamContent_healthy ws hah c h
  refine ⟨ws1, _, (List.range (hah.length / asyncMaxPayloadSize + 1)).map (fun (i : Nat) => (i : Int) + 1)
      ++ [((hah.length / asyncMaxPayloadSize : Nat) : Int) + 1], hr, ?_, ?_, ?_, rfl, ?_⟩
  · simp
  · rw [hs, List.append_assoc]
    congr 1
    rw [List.zipWith_append _ _ _ _ _ (by simp)]
    congr 1
    rw [List.zipWith_map_left, List.zipWith_map_right, List.zipWith_same]
  · intro p hp
    rw [List.mem_append] at hp
    rcases hp with hp | hp
    · rw [List.mem_map] at hp
      obtain ⟨i, _, rfl⟩ := hp
      rw [List.length_take]
      exact Nat.min_le_left _ _
    · rw [List.mem_singleton] at hp
      subst hp
      exact Nat.zero_le _
  · rw [List.flatten_append, join_all_slices]
    simp

/-- Witness of C3: the content `[1, 2, 3]` on channel 5 of a fresh connection. -/
theorem streamContent_lossless_witness :
    ∃ (ws1 : Conn) (payloads : List Bytes) (seqs : List Int),
      streamContent ⟨[], []⟩ [1, 2, 3] 5 = some (ws1, none) ∧
      seqs.length = payloads.length ∧
      ws1.sent = [] ++ List.zipWith (fun p s => asyncPacket p 5 s) payloads seqs ∧
      (∀ p ∈ payloads, p.length ≤ asyncMaxPayloadSize) ∧
      payloads = (List.range (([1, 2, 3] : Bytes).length / asyncMaxPayloadSize + 1)).map
          (fun i => (([1, 2, 3] : Bytes).drop (i * asyncMaxPayloadSize)).take
            asyncMaxPayloadSize) ++ [[]] ∧
      payloads.flatten = [1, 2, 3] :=
  streamContent_lossless ⟨[], []⟩ [1, 2, 3] 5 (by intro b hb; cases hb)

/-! ### Sequence numbers and the end of the stream -/

/-- C4, evaluated: a content of one byte is sent on channel 3 as one content
packet with sequence number 1, and the packet with the empty payload that
follows it carries sequence number 1 again, not 2. -/
theorem serveWebContent_last_seq_repeated :
    serveWebContent
        ⟨⟨[], []⟩, [], ⟨[], [HttpResult.response ⟨false, true, [7], false⟩]⟩, []⟩
        "http://h/x".toList true 3
      = some (⟨⟨[[0, 3, 0, 1, 7], [0, 3, 0, 1]], []⟩, [("http://h/x".toList, [7])],
          ⟨["http://h/x".toList], []⟩, []⟩, none) ∧
    decodePacket [0, 3, 0, 1, 7] = some (3, 1, [7]) ∧
    decodePacket [0, 3, 0, 1] = some (3, 1, []) := by
  decide

/-- C5, evaluated: a content of zero bytes is sent on channel 3 as two packets,
both with an empty payload and both with sequence number 1. -/
theorem serveWebContent_empty_two_packets :
    serveWebContent
        ⟨⟨[], []⟩, [], ⟨[], [HttpResult.response ⟨false, true, [], false⟩]⟩, []⟩
        "http://h/x".toList true 3
      = some (⟨⟨[[0, 3, 0, 1], [0, 3, 0, 1]], []⟩, [("http://h/x".toList, [])],
          ⟨["http://h/x".toList], []⟩, []⟩, none) ∧
    decodePacket [0, 3, 0, 1] = some (3, 1, []) := by
  decide

/-! ### Commands -/

/-- C6, evaluated: the command `GET http://example.test/x.json` with a body of
10 bytes writes a message of 14 bytes (the header of channel 0 and sequence
number 1, then the body) and a message of 4 bytes (the same header alone);
neither is the raw body or a zero-length message. -/
theorem processCmd_sync_web_framed :
    processCmd
        ⟨⟨[], []⟩, [],
          ⟨[], [HttpResult.response ⟨false, true, [1, 2, 3, 4, 5, 6, 7, 8, 9, 10], false⟩]⟩, []⟩
        "GET http://example.test/x.json".toList
      = some (⟨⟨[[0, 0, 0, 1, 1, 2, 3, 4, 5, 6, 7, 8, 9, 10], [0, 0, 0, 1]], []⟩,
          [("http://example.test/x.json".toList, [1, 2, 3, 4, 5, 6, 7, 8, 9, 10])],
          ⟨["http://example.test/x.json".toList], []⟩, []⟩, none) := by
  decide

/-- C8, evaluated: the command `GET -1 /x`, with `x` an existing empty file, is
not dropped: a packet is written, and its header carries channel id 65535. -/
theorem processCmd_negative_channel_served :
    processCmd ⟨⟨[], []⟩, [], ⟨[], []⟩, [("x".toList, ⟨[], false, none⟩)]⟩ "GET -1 /x".toList
      = some (⟨⟨[[255, 255, 0, 0]], []⟩, [], ⟨[], []⟩, [("x".toList, ⟨[], false, none⟩)]⟩, none) ∧
    decodePacket [255, 255, 0, 0] = some (65535, 0, []) := by
  decide

/-- C9, evaluated: when reading the body of the answer fails after two bytes,
`serveWebContent` stores these two bytes in `Cache` under the url and writes
them to the connection; the next request for the url is served from `Cache`
and no second HTTP request is made, although one more answer was ready. -/
theorem serveWebContent_read_error_cached :
    serveWebContent
        ⟨⟨[], []⟩, [],
          ⟨[], [HttpResult.response ⟨false, true, [1, 2], true⟩,
                HttpResult.response ⟨false, true, [1, 2, 3, 4], false⟩]⟩, []⟩
        "http://h/x".toList true 3
      = some (⟨⟨[[0, 3, 0, 1, 1, 2], [0, 3, 0, 1]], []⟩, [("http://h/x".toList, [1, 2])],
          ⟨["http://h/x".toList], [HttpResult.response ⟨false, true, [1, 2, 3, 4], false⟩]⟩, []⟩,
          none) ∧
    serveWebContent
        ⟨⟨[[0, 3, 0, 1, 1, 2], [0, 3, 0, 1]], []⟩, [("http://h/x".toList, [1, 2])],
          ⟨["http://h/x".toList], [HttpResult.response ⟨false, true, [1, 2, 3, 4], false⟩]⟩, []⟩
        "http://h/x".toList true 3
      = some (⟨⟨[[0, 3, 0, 1, 1, 2], [0, 3, 0, 1], [0, 3, 0, 1, 1, 2], [0, 3, 0, 1]], []⟩,
          [("http://h/x".toList, [1, 2])],
          ⟨["http://h/x".toList], [HttpResult.response ⟨false, true, [1, 2, 3, 4], false⟩]⟩, []⟩,
          none) := by
  decide

/-! ### `serveFile` -/

theorem serveFileLoop_healthy (c : Int) :
    ∀ (fuel : Nat) (ws : Conn) (rest : Bytes),
      ws.healthy → (rest.length + 1023) / 1024 + 1 ≤ fuel →
      ∃ ws1 : Conn,
        serveFileLoop true c fuel ws rest none = some (ws1, none) ∧ ws1.healthy ∧
        ws1.sent = ws.sent ++
          (List.range ((rest.length + 1023) / 1024)).map
            (fun i => asyncPacket ((rest.drop (i * 1024)).take 1024) c 0)
          ++ [asyncPacket [] c 0] := by
  intro fuel
  induction fuel with
  | zero => intro ws rest _ hf; omega
  | succ fuel ih =>
    intro ws rest hws hf
    have hW : WriteBufferSize = 1024 := rfl
    have hM : asyncMaxPayloadSize = 49996 := by decide
    unfold serveFileLoop
    rw [if_neg (by simp)]
    by_cases hrest : rest = []
    · subst hrest
      obtain ⟨ws1, hw, hh, hs⟩ := clientWriteAsync_healthy ws [] c 0 (Nat.zero_le _) hws
      refine ⟨ws1, ?_, hh, ?_⟩
      · simp [hw]
      · rw [hs]
        simp
    · have hpos : 0 < rest.length := List.length_pos.mpr hrest
      have hlen : (rest.take WriteBufferSize).length ≤ asyncMaxPayloadSize := by
        rw [List.length_take, hW, hM]; omega
      obtain ⟨ws1, hw, hh, hs⟩ :=
        clientWriteAsync_healthy ws (rest.take WriteBufferSize) c 0 hlen hws
      have hdl : (rest.drop WriteBufferSize).length = rest.length - 1024 := by
        rw [List.length_drop, hW]
      obtain ⟨ws2, hl, hh2, hs2⟩ := ih ws1 (rest.drop WriteBufferSize) hh (by omega)
      have hk : (rest.length + 1023) / 1024 = (rest.length - 1024 + 1023) / 1024 + 1 := by
        omega
      refine ⟨ws2, ?_, hh2, ?_⟩
      · simp only [hrest, if_false, if_true, hw, Option.map_none']
        exact hl
      · have hfun : (fun i => asyncPacket
              (((rest.drop WriteBufferSize).drop (i * 1024)).take 1024) c 0)
            = ((fun i => asyncPacket ((rest.drop (i * 1024)).take 1024) c 0) ∘ Nat.succ) := by
          funext i
          simp only [Function.comp, List.drop_drop, hW, Nat.succ_eq_add_one]
          congr 3
          ring
        rw [hs2, hs, hdl, hk, List.range_succ_eq_map, List.map_cons, List.map_map, hfun]
        simp only [List.append_assoc, List.singleton_append, Nat.zero_mul, List.drop_zero,
          List.cons_append, List.nil_append, hW]

theorem decodePacket_file_packet (p : Bytes) :
    decodePacket (asyncPacket p 3 0) = some (3, 0, p) := by
  rw [decodePacket_asyncPacket]
  rfl

theorem processCmd_get_3_file (w : World) :
    processCmd w "GET 3 /data/report.txt".toList
      = serveFile w "data/report.txt".toList true 3 := by
  rfl

theorem serveFile_120000 (d : Bytes) (hd : d.length = 120000) :
    ∃ w1 : World,
      serveFile ⟨⟨[], []⟩, [], ⟨[], []⟩, [("data/report.txt".toList, ⟨d, false, none⟩)]⟩
          "data/report.txt".toList true 3 = some (w1, none) ∧
      w1.ws.sent.length = 119 ∧
      ∀ m ∈ w1.ws.sent, ∃ p : Bytes, decodePacket m = some (3, 0, p) ∧ p.length ≤ 1024 := by
  obtain ⟨ws1, hl, _, hs⟩ := serveFileLoop_healthy 3 (d.length + 1) ⟨[], []⟩ d
    (by intro b hb; cases hb) (by omega)
  refine ⟨⟨ws1, [], ⟨[], []⟩, [("data/report.txt".toList, ⟨d, false, none⟩)]⟩, ?_, ?_, ?_⟩
  · have hlook : List.lookup "data/report.txt".toList
        [("data/report.txt".toList, (⟨d, false, none⟩ : File))] = some ⟨d, false, none⟩ := by
      rfl
    simp only [serveFile, hlook, hl]
    rfl
  · rw [hs, hd]
    simp
  · intro m hm
    rw [hs] at hm
    simp only [List.nil_append, List.mem_append, List.mem_map, List.mem_singleton] at hm
    rcases hm with ⟨i, _, rfl⟩ | rfl
    · refine ⟨_, decodePacket_file_packet _, ?_⟩
      rw [List.length_take]
      exact Nat.min_le_left _ _
    · exact ⟨[], decodePacket_file_packet _, Nat.zero_le _⟩

/-- C7, evaluated: for the command `GET 3 /data/report.txt` on a file of 120000
bytes, `processCmd` writes 119 packets; every one of them carries channel id 3
and sequence number 0, and no payload is longer than 1024 bytes. -/
theorem processCmd_file_scenario :
    ∃ w1 : World,
      processCmd
          ⟨⟨[], []⟩, [], ⟨[], []⟩,
            [("data/report.txt".toList, ⟨List.replicate 120000 0, false, none⟩)]⟩
          "GET 3 /data/report.txt".toList = some (w1, none) ∧
      w1.ws.sent.length = 119 ∧
      ∀ m ∈ w1.ws.sent, ∃ p : Bytes, decodePacket m = some (3, 0, p) ∧ p.length ≤ 1024 := by
  rw [processCmd_get_3_file]
  exact serveFile_120000 (List.replicate 120000 0) (List.length_replicate _ _)

/-! ### The cache and concurrent commands -/

theorem serveWebContent_eq_steps (w : World) (url : GoString) (async : Bool) (c : Int) :
    (serveWebContent w url async c).map Prod.fst =
      match WebTask.step w (WebTask.start url c) with
      | none => none
      | some (w1, WebTask.fetching u c1) => (WebTask.step w1 (WebTask.fetching u c1)).map Prod.fst
      | some (w1, _) => some w1 := by
  unfold serveWebContent
  cases hlook : w.Cache.lookup url with
  | some hah =>
    simp only [WebTask.step, hlook]
    rcases hs : streamWorld w hah c with _ | ⟨w1, _ | p⟩ <;> simp
  | none =>
    simp only [WebTask.step, hlook]
    rcases hf : fetchAndCache w url with ⟨w1, _ | p, hah⟩
    · simp only
      rcases hs : streamWorld w1 hah c with _ | ⟨w2, _ | p⟩ <;> simp
    · simp

/-- Counterexample to C10: two calls for the same url that both do their lookup
before either stores its answer make two HTTP requests, and here they stream
different bytes (`[1]` and `[2]`). -/
theorem concurrent_commands_fetch_twice :
    runTasks [0, 1, 0, 1]
        ⟨⟨[], []⟩, [],
          ⟨[], [HttpResult.response ⟨false, true, [1], false⟩,
                HttpResult.response ⟨false, true, [2], false⟩]⟩, []⟩
        [WebTask.start "http://h/x".toList 1, WebTask.start "http://h/x".toList 2]
      = some (⟨⟨[[0, 1, 0, 1, 1], [0, 1, 0, 1], [0, 2, 0, 1, 2], [0, 2, 0, 1]], []⟩,
            [("http://h/x".toList, [2])],
            ⟨["http://h/x".toList, "http://h/x".toList], []⟩, []⟩,
          [WebTask.finished (some [1]), WebTask.finished (some [2])]) := by
  decide

theorem streamWorld_healthy (w : World) (hah : Bytes) (c : Int) (h : w.ws.healthy) :
    ∃ w1 : World,
      streamWorld w hah c = some (w1, none) ∧ w1.ws.healthy ∧
      w1.ws.sent = w.ws.sent ++ streamPackets hah c ∧
      w1.Cache = w.Cache ∧ w1.net = w.net ∧ w1.fs = w.fs := by
  obtain ⟨ws1, hr, hh, hs⟩ := streamContent_healthy w.ws hah c h
  refine ⟨{ w with ws := ws1 }, ?_, hh, ?_, rfl, rfl, rfl⟩
  · unfold streamWorld
    rw [hr]
  · show ws1.sent = _
    rw [hs, streamPackets, List.append_assoc]

theorem lookup_cacheSet (cache : List (GoString × Bytes)) (url : GoString) (hah : Bytes) :
    (cacheSet cache url hah).lookup url = some hah := by
  simp [cacheSet, List.lookup]

theorem serveSequential_cached (url : GoString) (hah : Bytes) :
    ∀ (chans : List Int) (w : World),
      w.ws.healthy → w.Cache.lookup url = some hah →
      ∃ w1 : World,
        serveSequential url chans w = some w1 ∧ w1.net = w.net ∧ w1.Cache = w.Cache ∧
        w1.ws.sent = w.ws.sent ++ (chans.map (fun c => streamPackets hah c)).flatten := by
  intro chans
  induction chans with
  | nil => intro w _ _; exact ⟨w, rfl, rfl, rfl, by simp⟩
  | cons c cs ih =>
    intro w hw hc
    obtain ⟨w1, hr, hh, hs, hca, hn, _⟩ := streamWorld_healthy w hah c hw
    obtain ⟨w2, hr2, hn2, hc2, hs2⟩ := ih w1 hh (by rw [hca]; exact hc)
    refine ⟨w2, ?_, by rw [hn2, hn], by rw [hc2, hca], ?_⟩
    · simp only [serveSequential, serveWebContent, hc, hr]
      exact hr2
    · rw [hs2, hs]
      simp

/-- C10 as amended: commands for one url served one after another, starting
with no entry for the url in `Cache`, on a connection whose writes all
succeed, and with the first request answered by a body whose gzip header (if
it declares one) is accepted: exactly one HTTP request is made, the body is
stored under the url, and every command streams the packets of that same
body on its own channel. -/
theorem serveSequential_single_fetch (w : World) (url : GoString) (r : HttpResponse)
    (later : List HttpResult) (c : Int) (chans : List Int)
    (hws : w.ws.healthy) (hmiss : w.Cache.lookup url = none)
    (hreply : w.net.replies = HttpResult.response r :: later)
    (hgzip : (r.gzip && !r.gzipOk) = false) :
    ∃ w1 : World,
      serveSequential url (c :: chans) w = some w1 ∧
      w1.net.requests = w.net.requests ++ [url] ∧
      w1.net.replies = later ∧
      w1.Cache.lookup url = some r.body ∧
      w1.ws.sent = w.ws.sent ++ ((c :: chans).map (fun k => streamPackets r.body k)).flatten := by
  have hfetch : fetchAndCache w url
      = ({ w with net := ⟨w.net.requests ++ [url], later⟩,
                  Cache := cacheSet w.Cache url r.body }, none, r.body) := by
    simp only [fetchAndCache, Net.Do, hreply, hgzip]
    rfl
  obtain ⟨w1, hr, hh, hs, hca, hn, _⟩ := streamWorld_healthy
    { w with net := ⟨w.net.requests ++ [url], later⟩, Cache := cacheSet w.Cache url r.body }
    r.body c hws
  have hc1 : w1.Cache.lookup url = some r.body := by rw [hca]; exact lookup_cacheSet _ _ _
  obtain ⟨w2, hr2, hn2, hc2, hs2⟩ := serveSequential_cached url r.body chans w1 hh hc1
  refine ⟨w2, ?_, by rw [hn2, hn], by rw [hn2, hn], by rw [hc2]; exact hc1, ?_⟩
  · simp only [serveSequential, serveWebContent, hmiss, hfetch, hr]
    exact hr2
  · rw [hs2, hs]
    simp

/-- Witness of C10 as amended: three commands, on channels 1, 2 and 3, for a
url answered by the body `[9]`, with a second answer ready that is never
asked for. -/
theorem serveSequential_single_fetch_witness :
    ∃ w1 : World,
      serveSequential "http://h/x".toList (1 :: [2, 3])
          ⟨⟨[], []⟩, [],
            ⟨[], [HttpResult.response ⟨false, true, [9], false⟩,
                  HttpResult.response ⟨false, true, [8], false⟩]⟩, []⟩ = some w1 ∧
      w1.net.requests = [] ++ ["http://h/x".toList] ∧
      w1.net.replies = [HttpResult.response ⟨false, true, [8], false⟩] ∧
      w1.Cache.lookup "http://h/x".toList = some [9] ∧
      w1.ws.sent = [] ++ ((1 :: [2, 3]).map (fun k => streamPackets [9] k)).flatten :=
  serveSequential_single_fetch
    ⟨⟨[], []⟩, [],
      ⟨[], [HttpResult.response ⟨false, true, [9], false⟩,
            HttpResult.response ⟨false, true, [8], false⟩]⟩, []⟩
    "http://h/x".toList ⟨false, true, [9], false⟩
    [HttpResult.response ⟨false, true, [8], false⟩] 1 [2, 3]
    (by intro b hb; cases hb) (by decide) rfl rfl

/-- A request that fails, or an answer whose gzip header is rejected, ends the
call of `serveWebContent` in a panic with `Cache` and the connection as they
were; only the request itself has happened. -/
theorem serveWebContent_fetch_panic (w : World) (url : GoString) (async : Bool) (c : Int)
    (hmiss : w.Cache.lookup url = none) (p : Panic) (hah : Bytes)
    (hfetch : (fetchAndCache w url).2 = (some p, hah)) :
    ∃ w1 : World,
      serveWebContent w url async c = some (w1, some p) ∧
      w1.Cache = w.Cache ∧ w1.ws = w.ws ∧ w1.net.requests = w.net.requests ++ [url] := by
  unfold serveWebContent
  rw [hmiss]
  unfold fetchAndCache at hfetch ⊢
  unfold Net.Do at hfetch ⊢
  cases hr : w.net.replies with
  | nil =>
    rw [hr] at hfetch
    simp only [Prod.mk.injEq, Option.some.injEq] at hfetch
    obtain ⟨rfl, _⟩ := hfetch
    exact ⟨_, rfl, rfl, rfl, rfl⟩
  | cons r rest =>
    rw [hr] at hfetch
    cases r with
    | failed =>
      simp only [Prod.mk.injEq, Option.some.injEq] at hfetch
      obtain ⟨rfl, _⟩ := hfetch
      exact ⟨_, rfl, rfl, rfl, rfl⟩
    | response r =>
      simp only at hfetch ⊢
      by_cases hg : (r.gzip && !r.gzipOk) = true
      · rw [if_pos hg] at hfetch ⊢
        simp only [Prod.mk.injEq, Option.some.injEq] at hfetch
        obtain ⟨rfl, _⟩ := hfetch
        exact ⟨_, rfl, rfl, rfl, rfl⟩
      · rw [if_neg hg] at hfetch
        simp at hfetch

/-! ### The fuel is enough -/

theorem streamLoop_returns (hah : Bytes) (c : Int) :
    ∀ (fuel : Nat) (ws : Conn) (seq : Int) (offset : Nat),
      offset ≤ hah.length → (hah.length - offset) / asyncMaxPayloadSize + 1 ≤ fuel →
      (streamLoop hah c fuel ws seq offset).isSome = true := by
  intro fuel
  induction fuel with
  | zero => intro ws seq offset _ hf; exact absurd hf (Nat.not_succ_le_zero _)
  | succ fuel ih =>
    intro ws seq offset hoff hf
    have hpos := asyncMaxPayloadSize_pos
    unfold streamLoop
    by_cases hlast : offset + asyncMaxPayloadSize > hah.length
    · simp only [hlast, if_true]
      cases goSlice hah offset hah.length with
      | none => rfl
      | some chunk => rfl
    · have hge : asyncMaxPayloadSize ≤ hah.length - offset := by omega
      have hdiv : (hah.length - offset) / asyncMaxPayloadSize
          = (hah.length - (offset + asyncMaxPayloadSize)) / asyncMaxPayloadSize + 1 := by
        rw [Nat.div_eq_sub_div hpos hge, Nat.sub_sub]
      simp only [hlast, if_false]
      cases goSlice hah offset (offset + asyncMaxPayloadSize) with
      | none => rfl
      | some chunk =>
        rcases hw : clientWriteAsync ws chunk c (seq + 1) with ⟨ws1, _ | p⟩
        · simp only [hw]
          exact ih ws1 (seq + 1) (offset + asyncMaxPayloadSize) (by omega) (by omega)
        · simp only [hw]
          rfl

theorem streamWorld_returns (w : World) (hah : Bytes) (c : Int) :
    (streamWorld w hah c).isSome = true := by
  have hfuel : (hah.length - 0) / asyncMaxPayloadSize + 1 ≤ hah.length + 1 := by
    have := Nat.div_le_self hah.length asyncMaxPayloadSize
    simp only [Nat.sub_zero]; omega
  have h := streamLoop_returns hah c (hah.length + 1) w.ws 0 0 (Nat.zero_le _) hfuel
  unfold streamWorld streamContent
  rcases hl : streamLoop hah c (hah.length + 1) w.ws 0 0 with _ | ⟨ws1, seq, _ | p⟩
  · rw [hl] at h; cases h
  · rfl
  · rfl

theorem serveWebContent_returns (w : World) (url : GoString) (async : Bool) (c : Int) :
    (serveWebContent w url async c).isSome = true := by
  unfold serveWebContent
  cases w.Cache.lookup url with
  | some hah => exact streamWorld_returns w hah c
  | none =>
    rcases fetchAndCache w url with ⟨w1, _ | p, hah⟩
    · exact streamWorld_returns w1 hah c
    · rfl

theorem serveFileLoop_returns (async : Bool) (c : Int) :
    ∀ (fuel : Nat) (ws : Conn) (rest : Bytes) (errAfter : Option Nat),
      rest.length + 1 ≤ fuel → (serveFileLoop async c fuel ws rest errAfter).isSome = true := by
  intro fuel
  induction fuel with
  | zero => intro ws rest errAfter hf; omega
  | succ fuel ih =>
    intro ws rest errAfter hf
    unfold serveFileLoop
    by_cases he : errAfter = some 0
    · simp only [he, if_true]; rfl
    · by_cases hrest : rest = []
      · simp only [he, hrest, if_true, if_false]
        cases async <;> rfl
      · have hpos : 0 < rest.length := List.length_pos.mpr hrest
        have hdl : (rest.drop WriteBufferSize).length + 1 ≤ fuel := by
          have hW : WriteBufferSize = 1024 := rfl
          rw [List.length_drop, hW]; omega
        simp only [he, hrest, if_false]
        rcases hw : (if async = true then clientWriteAsync ws (rest.take WriteBufferSize) c 0
             else clientWriteSync ws (rest.take WriteBufferSize)) with ⟨ws1, _ | p⟩
        · simp only
          exact ih ws1 _ _ hdl
        · rfl

theorem serveFile_returns (w : World) (filepath : GoString) (async : Bool) (c : Int) :
    (serveFile w filepath async c).isSome = true := by
  unfold serveFile
  cases w.fs.lookup filepath with
  | none => rfl
  | some f =>
    simp only
    by_cases ho : f.openErr = true
    · simp only [ho, if_true]; rfl
    · have h := serveFileLoop_returns async c (f.data.length + 1) w.ws f.data f.readErrAfter
        (le_refl _)
      simp only [ho, if_false]
      rcases hl : serveFileLoop async c (f.data.length + 1) w.ws f.data f.readErrAfter
        with _ | ⟨ws1, p⟩
      · rw [hl] at h; cases h
      · rfl

/-- Every call of `processCmd` returns: no loop runs out of the fuel it is
given, whatever the connection, the network and the files do. -/
theorem processCmd_returns (w : World) (buf : GoString) :
    (processCmd w buf).isSome = true := by
  have htarget : ∀ (get : GoString) (async : Bool) (c : Int),
      (serveTarget w get async c).isSome = true := by
    intro get async c
    unfold serveTarget
    split
    · exact serveFile_returns _ _ _ _
    · split
      · exact serveWebContent_returns _ _ _ _
      · rfl
  unfold processCmd
  split
  · split
    · split
      · split
        · rfl
        · split
          · rfl
          · exact htarget _ _ _
      · exact htarget _ _ _
      · rfl
    · rfl
  · rfl

end WsFile
